import Mathlib

/-!
Shallow embedding of the pattern-execution engine of `dune-weaver`
(`modules/core/pattern_manager.py`), together with theorems settling the
claims about it.

Modelling conventions:
* Python floats are modelled as rationals (`ℚ`); the properties at stake are
  exact algebraic identities (subtraction, equality), not rounding behaviour.
* File contents are modelled line by line: after `line.strip()`, a line is
  blank, a `#`-comment, or a list of whitespace-separated tokens, each of
  which either parses as a float (`Token.num q`) or does not (`Token.bad`).
* Exceptions are modelled by `Option`: a function returning `none` models an
  execution that blocks forever on the modelled environment (an exhausted
  reply stream for the unbounded "R" retry loop, or a pause that is never
  released); transport failures are modelled by an explicit environment flag.
* Concurrently-written shared flags (`stop_requested`, reads of
  `pause_requested` after a condition-variable wait) are modelled by an
  environment that supplies the value observed at each read; flag writes the
  runner itself performs (`pause_requested` via `schedule_checker`) are
  threaded through the state.
* Observable behaviour is a trace of events: transport calls
  (`send_coordinate_batch`, `send_command`, `reset_theta`), assignments to
  `execution_progress`, MQTT state notifications (`_update_mqtt_state`,
  recorded with the `current_playing_file` / `execution_progress` snapshot it
  publishes), and condition-variable `notify_all` calls.
-/

namespace DuneWeaver

/-- A single theta-rho coordinate pair, as produced by the parser. -/
structure Point where
  theta : ℚ
  rho : ℚ
deriving DecidableEq, Repr

/-- A whitespace-separated token of a pattern-file line: either a string that
`float(...)` accepts (carrying its value) or one it rejects. -/
inductive Token where
  | num (q : ℚ)
  | bad
deriving DecidableEq, Repr

/-- A line of a pattern file after `strip()`: empty, starting with `#`, or a
list of its whitespace-separated tokens. -/
inductive Line where
  | blank
  | comment
  | toks (ts : List Token)
deriving DecidableEq, Repr

/-- The body of the per-line `try` block of `parse_theta_rho_file`:
`theta, rho = map(float, line.split())` succeeds exactly when the line has
exactly two tokens and both parse as floats; any other shape raises
`ValueError` and the line is skipped.  Blank and `#`-comment lines are
skipped by the `continue` before the `try`. -/
def parseLine : Line → Option Point
  | Line.blank => none
  | Line.comment => none
  | Line.toks [Token.num a, Token.num b] => some ⟨a, b⟩
  | Line.toks _ => none

/-- The accumulation loop of `parse_theta_rho_file`: every line that parses
contributes one point, in file order. -/
def parseLines (ls : List Line) : List Point :=
  ls.filterMap parseLine

/-- The normalisation step of `parse_theta_rho_file`: if any coordinates were
read, subtract the first raw theta from every theta; rho is untouched. -/
def normalizeCoords (coords : List Point) : List Point :=
  match coords with
  | [] => []
  | c0 :: _ => coords.map (fun c => ⟨c.theta - c0.theta, c.rho⟩)

/-- `parse_theta_rho_file`: `none` contents models a missing or unreadable
file (`FileNotFoundError` or any other read error), for which the function
returns the (empty) accumulator; otherwise every line is processed and the
result is normalised. -/
def parse_theta_rho_file (contents : Option (List Line)) : List Point :=
  match contents with
  | none => []
  | some ls => normalizeCoords (parseLines ls)

/-- Time of day, in seconds since midnight (any linearly ordered reading
works; `datetime.time` compares pointwise-lexicographically). -/
abbrev Time := ℕ

/-- `schedule_checker(schedule_hours)` acting on the `pause_requested` flag.
Returns the new flag value and whether `pause_condition.notify_all()` was
called.  With no window it returns immediately; within `[start, end)` it
clears the flag and notifies all waiters; outside the window it sets the flag
(and spawns the `wait_for_start_time` poller, an external thread not part of
the flag semantics here). -/
def schedule_checker (schedule_hours : Option (Time × Time)) (now : Time)
    (pause_requested : Bool) : Bool × Bool :=
  match schedule_hours with
  | none => (pause_requested, false)
  | some (start_time, end_time) =>
      if start_time ≤ now ∧ now < end_time then (false, true)
      else (true, false)

/-- Snapshot of the mutable globals of `pattern_manager.py` that form the
execution state. -/
structure ExecState where
  stop_requested : Bool
  pause_requested : Bool
  current_playing_file : Option String
  execution_progress : Option (ℕ × ℕ)
  current_playing_index : Option ℕ
  current_playlist : Option (List String)
  is_clearing : Bool
deriving DecidableEq, Repr

/-- Observable events of the engine: transport calls, writes to
`execution_progress`, MQTT notifications (with the file/progress snapshot
they publish), and condition-variable broadcasts. -/
inductive Ev where
  | sendBatch (pts : List Point)
  | poll (reply : String)
  | sendCmd (cmd : String)
  | resetPos
  | progress (p : Option (ℕ × ℕ))
  | notify (file : Option String) (prog : Option (ℕ × ℕ))
  | cvNotifyAll
deriving DecidableEq, Repr

/-- Transport events (serial-manager calls) among the observable events. -/
def isTransport : Ev → Bool
  | Ev.sendBatch _ => true
  | Ev.poll _ => true
  | Ev.sendCmd _ => true
  | Ev.resetPos => true
  | _ => false

/-- `get_execution_status()`: a read-only snapshot of the shared state. -/
def get_execution_status (s : ExecState) : ExecState := s

/-- `stop_execution()`: notify all waiters with `pause_requested` cleared,
set `stop_requested`, clear all run bookkeeping, notify MQTT. -/
def stop_execution (_s : ExecState) : ExecState × List Ev :=
  ({ stop_requested := true
     pause_requested := false
     current_playing_file := none
     execution_progress := none
     current_playing_index := none
     current_playlist := none
     is_clearing := false },
   [Ev.cvNotifyAll, Ev.notify none none])

/-- `pause_execution()`: set `pause_requested`, notify MQTT (the snapshot
publishes the unchanged file/progress). -/
def pause_execution (s : ExecState) : ExecState × List Ev :=
  ({ s with pause_requested := true },
   [Ev.notify s.current_playing_file s.execution_progress])

/-- `resume_execution()`: clear `pause_requested`, notify all waiters,
notify MQTT. -/
def resume_execution (s : ExecState) : ExecState × List Ev :=
  ({ s with pause_requested := false },
   [Ev.cvNotifyAll, Ev.notify s.current_playing_file s.execution_progress])

/-- The state-consistency invariant: `execution_progress` is set only while
`current_playing_file` is set. -/
def progressInv (s : ExecState) : Prop :=
  s.execution_progress.isSome → s.current_playing_file.isSome

/-- A published MQTT snapshot respects the invariant. -/
def notifyOK : Ev → Prop
  | Ev.notify f p => p.isSome → f.isSome
  | _ => True

/-! ### `run_theta_rho_file` — the flow-controlled streaming loop

The loop `for i in range(0, total, batch_size)` is modelled as recursion over
the list of 10-point chunks, with the batch index `k` (so `i = 10 * k`)
threaded for environment queries.  The environment supplies the concurrent
reads and transport replies. -/

/-- Environment of one `run_theta_rho_file` call: the value of
`stop_requested` observed at the top of batch-iteration `k` (the flag is
written concurrently by `stop_execution`); the release schedule of the pause
wait at iteration `k` (`some n` = the condition-variable wait loop reads
`pause_requested = true` `n + 1` times, then reads `false`; `none` = never
released); the stream of `(now, reply)` pairs consumed by successive
handshake attempts (`schedule_checker` time, then `send_command("R")` reply);
and whether `send_coordinate_batch` raises at iteration `k`. -/
structure RunEnv where
  stopAt : ℕ → Bool
  release : ℕ → Option ℕ
  attempts : List (Time × String)
  batchRaises : ℕ → Bool

/-- The `with pause_condition: while pause_requested: ... wait()` block at the
top of each batch iteration.  Each iteration that observes the flag set logs,
publishes the current MQTT snapshot and waits; values read after a wait come
from the environment.  `none` models a pause that is never released. -/
def pauseWait (fp : String) (prog : ℕ × ℕ) (pause : Bool) (release : Option ℕ) :
    Option (List Ev × Bool) :=
  if pause then
    match release with
    | none => none
    | some n => some (List.replicate (n + 1) (Ev.notify (some fp) (some prog)), false)
  else some ([], pause)

/-- The unbounded `while True` handshake loop for a non-initial batch: call
`schedule_checker`, poll with `send_command("R")`, and exit only on the exact
reply `"R"`.  Consumes `(now, reply)` pairs; threads the `pause_requested`
writes of `schedule_checker`; returns the poll events, the final flag and the
unconsumed stream.  `none` models a device that never acknowledges within the
modelled stream — the loop (which checks neither stop nor pause) spins
forever. -/
def awaitAck (schedule_hours : Option (Time × Time)) :
    Bool → List (Time × String) → Option (List Ev × Bool × List (Time × String))
  | _, [] => none
  | p, (t, r) :: rest =>
      let p1 := (schedule_checker schedule_hours t p).1
      if r = "R" then some ([Ev.poll r], p1, rest)
      else
        match awaitAck schedule_hours p1 rest with
        | none => none
        | some (evs, p2, rem) => some (Ev.poll r :: evs, p2, rem)

/-- The chunks `coordinates[i:i+batch_size]` for `i in range(0, total, 10)`. -/
def chunks (coords : List Point) : List (List Point) :=
  (List.range ((coords.length + 9) / 10)).map (fun k => (coords.drop (10 * k)).take 10)

/-- One pass of the `for i in range(0, total_coordinates, batch_size)` loop,
recursing over the remaining chunks with `k = i / 10`.  Per iteration: read
`stop_requested` and break if set; run the pause-wait block; send the first
batch unconditionally, every later batch only after `awaitAck`; each send is
followed by the `execution_progress = (i + batch_size, total)` assignment.
Returns `(events, exceptionRaised, pause, remainingAttempts)`; `none` models
an unreleased block inside the loop. -/
def streamLoop (env : RunEnv) (schedule_hours : Option (Time × Time))
    (fp : String) (total : ℕ) :
    ℕ → List (List Point) → (ℕ × ℕ) → Bool → List (Time × String) →
    Option (List Ev × Bool × Bool × List (Time × String))
  | _, [], _, p, att => some ([], false, p, att)
  | k, b :: rest, prog, p, att =>
      if env.stopAt k then some ([], false, p, att)
      else
        match pauseWait fp prog p (env.release k) with
        | none => none
        | some (pevs, p1) =>
            if k = 0 then
              if env.batchRaises k then some (pevs, true, p1, att)
              else
                match streamLoop env schedule_hours fp total (k + 1) rest
                    (10 * k + 10, total) p1 att with
                | none => none
                | some (evs, exc, p2, att2) =>
                    some (pevs ++ [Ev.sendBatch b, Ev.progress (some (10 * k + 10, total))]
                            ++ evs, exc, p2, att2)
            else
              match awaitAck schedule_hours p1 att with
              | none => none
              | some (aevs, p2, att2) =>
                  if env.batchRaises k then some (pevs ++ aevs, true, p2, att2)
                  else
                    match streamLoop env schedule_hours fp total (k + 1) rest
                        (10 * k + 10, total) p2 att2 with
                    | none => none
                    | some (evs, exc, p3, att3) =>
                        some (pevs ++ aevs
                                ++ [Ev.sendBatch b, Ev.progress (some (10 * k + 10, total))]
                                ++ evs, exc, p3, att3)

/-- Result of a `run_theta_rho_file` call: its event trace and the values of
`current_playing_file`, `execution_progress` and `pause_requested` when the
function returns. -/
structure RunResult where
  trace : List Ev
  current_playing_file : Option String
  execution_progress : Option (ℕ × ℕ)
  pause_out : Bool
deriving DecidableEq, Repr

/-- `run_theta_rho_file(file_path, schedule_hours)`.  Clears
`stop_requested`, sets `current_playing_file` and `execution_progress=(0,0)`,
notifies MQTT, parses the file (`fs` is the filesystem), rejects patterns of
fewer than 2 points (clearing both fields and notifying), otherwise streams
the chunks; on loop exit without exception it issues `reset_theta()` and
`send_command("FINISHED")` (an exception in the loop skips both); the
`finally` block always clears both fields and notifies.  `p0` is the
`pause_requested` value when the call starts. -/
def run_theta_rho_file (env : RunEnv) (fs : String → Option (List Line))
    (schedule_hours : Option (Time × Time)) (file_path : String) (p0 : Bool) :
    Option RunResult :=
  let pre := [Ev.progress (some (0, 0)), Ev.notify (some file_path) (some (0, 0))]
  let coordinates := parse_theta_rho_file (fs file_path)
  let total := coordinates.length
  if total < 2 then
    some ⟨pre ++ [Ev.progress none, Ev.notify none none], none, none, p0⟩
  else
    match streamLoop env schedule_hours file_path total 0 (chunks coordinates)
        (0, total) p0 env.attempts with
    | none => none
    | some (evs, exc, p1, _) =>
        let tail := if exc then [] else [Ev.resetPos, Ev.sendCmd "FINISHED"]
        some ⟨pre ++ [Ev.progress (some (0, total))] ++ evs ++ tail
                ++ [Ev.progress none, Ev.notify none none], none, none, p1⟩

/-! ### `run_theta_rho_files` — the playlist runner -/

/-- The fixed clear-pattern presets. -/
def CLEAR_PATTERNS : List (String × String) :=
  [("clear_from_in", "./patterns/clear_from_in.thr"),
   ("clear_from_out", "./patterns/clear_from_out.thr"),
   ("clear_sideway", "./patterns/clear_sideway.thr")]

/-- `get_clear_pattern_file(pattern_name)`: `"random"` resolves to the
environment-supplied `random.choice`; unknown keys fall back to
`clear_from_in`. -/
def get_clear_pattern_file (choice : String) (pattern_name : String) : String :=
  if pattern_name = "random" then choice
  else (CLEAR_PATTERNS.lookup pattern_name).getD "./patterns/clear_from_in.thr"

/-- Environment of one `run_theta_rho_files` call: the `stop_requested`
value observed at its j-th read, the clock at its j-th `schedule_checker`
call, the `RunEnv` of its j-th nested `run_theta_rho_file` call, the
`random.choice` result of its j-th `"random"` clear resolution, and the
permutation `random.shuffle` produces on pass `n`. -/
structure PlEnv where
  stopRead : ℕ → Bool
  timeAt : ℕ → Time
  fileEnv : ℕ → RunEnv
  clearChoice : ℕ → String
  shuffled : ℕ → List String → List String

/-- Per-call counters for querying `PlEnv`: stop reads, schedule checks,
nested file runs, random clear choices. -/
structure PlCtr where
  sc : ℕ
  tc : ℕ
  fc : ℕ
  cc : ℕ
deriving DecidableEq, Repr

/-- Outcome of the clear-pattern phase of one playlist item: an early
`return` (stop observed), a nested run blocked forever, or fall-through. -/
inductive PhaseOut where
  | ret (evs : List Ev) (p : Bool) (c : PlCtr)
  | blocked
  | cont (evs : List Ev) (p : Bool) (c : PlCtr)

/-- The `if clear_pattern:` block of one playlist item: a falsy
`clear_pattern` (absent or empty) skips it; otherwise re-check stop (early
return), resolve the clear file, and run it nested (with `is_clearing` set
around the run). -/
def clearPhase (env : PlEnv) (fs : String → Option (List Line))
    (schedule_hours : Option (Time × Time)) (clear_pattern : Option String)
    (p : Bool) (c : PlCtr) : PhaseOut :=
  match clear_pattern with
  | none => PhaseOut.cont [] p c
  | some cp =>
      if cp = "" then PhaseOut.cont [] p c
      else if env.stopRead c.sc then PhaseOut.ret [] p { c with sc := c.sc + 1 }
      else
        let c1 : PlCtr := { c with sc := c.sc + 1 }
        let clear_file := get_clear_pattern_file (env.clearChoice c1.cc) cp
        let c2 : PlCtr := if cp = "random" then { c1 with cc := c1.cc + 1 } else c1
        match run_theta_rho_file (env.fileEnv c2.fc) fs schedule_hours clear_file p with
        | none => PhaseOut.blocked
        | some r => PhaseOut.cont r.trace r.pause_out { c2 with fc := c2.fc + 1 }

/-- The `for idx, path in enumerate(file_paths)` loop of
`run_theta_rho_files`: per item set `current_playing_index`, call
`schedule_checker`, return on stop, run the clear phase, run the target
pattern unless stop was observed, and between items (not after the last)
return on stop or sleep `pause_time`.  Returns `(earlyReturn, events,
pause, counters)`. -/
def playlistItems (env : PlEnv) (fs : String → Option (List Line))
    (schedule_hours : Option (Time × Time)) (clear_pattern : Option String)
    (total_files : ℕ) :
    List String → ℕ → Bool → PlCtr → Option (Bool × List Ev × Bool × PlCtr)
  | [], _, p, c => some (false, [], p, c)
  | path :: rest, idx, p, c =>
      let p1 := (schedule_checker schedule_hours (env.timeAt c.tc) p).1
      let c0 : PlCtr := { c with tc := c.tc + 1 }
      if env.stopRead c0.sc then some (true, [], p1, { c0 with sc := c0.sc + 1 })
      else
        let c1 : PlCtr := { c0 with sc := c0.sc + 1 }
        match clearPhase env fs schedule_hours clear_pattern p1 c1 with
        | PhaseOut.blocked => none
        | PhaseOut.ret evs p2 c2 => some (true, evs, p2, c2)
        | PhaseOut.cont evs1 p2 c2 =>
            let step :=
              if env.stopRead c2.sc then
                some (([] : List Ev), p2, ({ c2 with sc := c2.sc + 1 } : PlCtr))
              else
                match run_theta_rho_file (env.fileEnv c2.fc) fs schedule_hours path p2 with
                | none => none
                | some r =>
                    some (r.trace, r.pause_out,
                      ({ c2 with sc := c2.sc + 1, fc := c2.fc + 1 } : PlCtr))
            match step with
            | none => none
            | some (evs2, p3, c3) =>
                if idx < total_files - 1 then
                  if env.stopRead c3.sc then
                    some (true, evs1 ++ evs2, p3, { c3 with sc := c3.sc + 1 })
                  else
                    match playlistItems env fs schedule_hours clear_pattern total_files
                        rest (idx + 1) p3 { c3 with sc := c3.sc + 1 } with
                    | none => none
                    | some (early, evs4, p4, c4) =>
                        some (early, evs1 ++ evs2 ++ evs4, p4, c4)
                else
                  match playlistItems env fs schedule_hours clear_pattern total_files
                      rest (idx + 1) p3 c3 with
                  | none => none
                  | some (early, evs4, p4, c4) =>
                      some (early, evs1 ++ evs2 ++ evs4, p4, c4)

/-- The outer `while True` of `run_theta_rho_files`, fuelled: one pass over
the items; an early return propagates; otherwise `"indefinite"` mode sleeps,
optionally reshuffles and loops, and any other mode breaks.  `none` models
fuel exhaustion of the indefinite loop or a blocked nested run. -/
def playlistPasses (env : PlEnv) (fs : String → Option (List Line))
    (schedule_hours : Option (Time × Time)) (clear_pattern : Option String)
    (run_mode : String) (shuffle : Bool) :
    ℕ → List String → ℕ → Bool → PlCtr → Option (Bool × List Ev × Bool × PlCtr)
  | 0, _, _, _, _ => none
  | fuel + 1, files, passIdx, p, c =>
      match playlistItems env fs schedule_hours clear_pattern files.length
          files 0 p c with
      | none => none
      | some (true, evs, p1, c1) => some (true, evs, p1, c1)
      | some (false, evs, p1, c1) =>
          if run_mode = "indefinite" then
            let files1 := if shuffle then env.shuffled (passIdx + 1) files else files
            match playlistPasses env fs schedule_hours clear_pattern run_mode shuffle
                fuel files1 (passIdx + 1) p1 c1 with
            | none => none
            | some (early, evs2, p2, c2) => some (early, evs ++ evs2, p2, c2)
          else some (false, evs, p1, c1)

/-- `run_theta_rho_files(file_paths, pause_time, clear_pattern, run_mode,
shuffle, schedule_hours)`: clear `stop_requested`, shuffle if requested,
publish `current_playlist`, run the passes; the early-return paths leave the
function directly, while completing the passes falls through to
`reset_theta()` and `send_command("FINISHED")`. -/
def run_theta_rho_files (fuel : ℕ) (env : PlEnv) (fs : String → Option (List Line))
    (file_paths : List String) (pause_time : ℕ) (clear_pattern : Option String)
    (run_mode : String) (shuffle : Bool) (schedule_hours : Option (Time × Time))
    (p0 : Bool) : Option (List Ev) :=
  let _ := pause_time
  let files0 := if shuffle then env.shuffled 0 file_paths else file_paths
  match playlistPasses env fs schedule_hours clear_pattern run_mode shuffle
      fuel files0 0 p0 ⟨0, 0, 0, 0⟩ with
  | none => none
  | some (true, evs, _, _) => some evs
  | some (false, evs, _, _) => some (evs ++ [Ev.resetPos, Ev.sendCmd "FINISHED"])

/-- An interleaving of two line sequences into one file. -/
inductive Interleaved : List Line → List Line → List Line → Prop
  | nil : Interleaved [] [] []
  | left {a : Line} {as bs cs : List Line} :
      Interleaved as bs cs → Interleaved (a :: as) bs (a :: cs)
  | right {b : Line} {as bs cs : List Line} :
      Interleaved as bs cs → Interleaved as (b :: bs) (b :: cs)

/-! ### Concrete runs used as witnesses and counterexamples -/

/-- A 25-point pattern (first theta 0, so normalisation leaves it fixed). -/
def cePoints : List Point := List.replicate 25 ⟨0, 0⟩

/-- File contents producing `cePoints`. -/
def ceLines : List Line := List.replicate 25 (Line.toks [Token.num 0, Token.num 0])

/-- A filesystem with the 25-point file everywhere. -/
def ceFs : String → Option (List Line) := fun _ => some ceLines

/-- Benign environment: never stopped, never paused, device always ready. -/
def ceEnvC1 : RunEnv :=
  ⟨fun _ => false, fun _ => none, [(0, "R"), (0, "R")], fun _ => false⟩

/-- The trace of the benign 25-point run. -/
def ceTraceC1 : List Ev :=
  [Ev.progress (some (0, 0)), Ev.notify (some "a.thr") (some (0, 0)),
   Ev.progress (some (0, 25)),
   Ev.sendBatch (cePoints.take 10), Ev.progress (some (10, 25)),
   Ev.poll "R", Ev.sendBatch ((cePoints.drop 10).take 10), Ev.progress (some (20, 25)),
   Ev.poll "R", Ev.sendBatch ((cePoints.drop 20).take 10), Ev.progress (some (30, 25)),
   Ev.resetPos, Ev.sendCmd "FINISHED", Ev.progress none, Ev.notify none none]


/-- Environment of the stop-during-retry run: the device answers the first
poll for batch 2 with `"BUSY"`; `stop_execution` is called while that retry
loop is polling, so every stop read from the third iteration (index 2) on
returns true. -/
def ceEnvC2 : RunEnv :=
  ⟨fun k => decide (2 ≤ k), fun _ => none, [(0, "BUSY"), (0, "R")], fun _ => false⟩

/-- The trace of the stop-during-retry run. -/
def ceTraceC2 : List Ev :=
  [Ev.progress (some (0, 0)), Ev.notify (some "a.thr") (some (0, 0)),
   Ev.progress (some (0, 25)),
   Ev.sendBatch (cePoints.take 10), Ev.progress (some (10, 25)),
   Ev.poll "BUSY", Ev.poll "R", Ev.sendBatch ((cePoints.drop 10).take 10),
   Ev.progress (some (20, 25)),
   Ev.resetPos, Ev.sendCmd "FINISHED", Ev.progress none, Ev.notify none none]

/-- A 5-point pattern and its file, for the short-pattern progress run. -/
def cePoints5 : List Point := List.replicate 5 ⟨0, 0⟩

/-- File contents producing `cePoints5`. -/
def ceLines5 : List Line := List.replicate 5 (Line.toks [Token.num 0, Token.num 0])

/-- A filesystem with the 5-point file everywhere. -/
def ceFs5 : String → Option (List Line) := fun _ => some ceLines5

/-- The trace of the benign 5-point run: a single batch of all 5 points,
after which the recorded progress is `(10, 5)`. -/
def ceTraceC3 : List Ev :=
  [Ev.progress (some (0, 0)), Ev.notify (some "b.thr") (some (0, 0)),
   Ev.progress (some (0, 5)),
   Ev.sendBatch cePoints5, Ev.progress (some (10, 5)),
   Ev.resetPos, Ev.sendCmd "FINISHED", Ev.progress none, Ev.notify none none]

/-- Playlist environment where `stop_execution` has already run when the
first stop check happens: every stop read returns true. -/
def ceEnvPlStop : PlEnv :=
  ⟨fun _ => true, fun _ => 0, fun _ => ceEnvC1, fun _ => "", fun _ l => l⟩

/-- Benign playlist environment: never stopped, clock at 0, benign file
runs, identity shuffle. -/
def ceEnvPl : PlEnv :=
  ⟨fun _ => false, fun _ => 0, fun _ => ceEnvC1, fun _ => "", fun _ l => l⟩

/-- Batch payloads (`send_coordinate_batch` arguments) of a trace. -/
def batchesOf (tr : List Ev) : List (List Point) :=
  tr.filterMap (fun e => match e with | Ev.sendBatch b => some b | _ => none)

/-- The shape of one completed handshake: zero or more polls answered with
something other than `"R"`, then one poll answered `"R"`. -/
def ackBlock (evs : List Ev) : Prop :=
  ∃ rs : List String, (∀ r ∈ rs, r ≠ "R") ∧ evs = rs.map Ev.poll ++ [Ev.poll "R"]

section Lemmas

lemma length_filterMap_of_valid (vs : List Line)
    (hv : ∀ l ∈ vs, ∃ a b, l = Line.toks [Token.num a, Token.num b]) :
    (vs.filterMap parseLine).length = vs.length := by
  induction vs with
  | nil => rfl
  | cons v tl ih =>
      obtain ⟨a, b, rfl⟩ := hv v (List.mem_cons_self v tl)
      simp only [List.filterMap_cons, parseLine, List.length_cons]
      rw [ih (fun l hl => hv l (List.mem_cons_of_mem _ hl))]

lemma parseLines_interleaved {vs js ls : List Line}
    (hIl : Interleaved vs js ls)
    (hv : ∀ l ∈ vs, ∃ a b, l = Line.toks [Token.num a, Token.num b])
    (hj : ∀ l ∈ js, parseLine l = none) :
    parseLines ls = vs.filterMap parseLine := by
  induction hIl with
  | nil => rfl
  | @left a as bs cs h ih =>
      obtain ⟨x, y, rfl⟩ := hv a (List.mem_cons_self a as)
      simp only [parseLines, List.filterMap_cons, parseLine]
      rw [← ih (fun l hl => hv l (List.mem_cons_of_mem _ hl)) hj]
      rfl
  | @right b as bs cs h ih =>
      have hb := hj b (List.mem_cons_self b bs)
      simp only [parseLines, List.filterMap_cons, hb]
      exact ih hv (fun l hl => hj l (List.mem_cons_of_mem _ hl))

lemma pauseWait_mem (fp : String) (prog : ℕ × ℕ) (p : Bool) (rel : Option ℕ)
    (pevs : List Ev) (p1 : Bool)
    (h : pauseWait fp prog p rel = some (pevs, p1)) :
    ∀ e ∈ pevs, e = Ev.notify (some fp) (some prog) := by
  unfold pauseWait at h
  by_cases hp : p
  · rw [if_pos hp] at h
    cases rel with
    | none => simp at h
    | some n =>
        simp only [Option.some_inj, Prod.mk.injEq] at h
        intro e he
        rw [← h.1] at he
        exact List.eq_of_mem_replicate he
  · rw [if_neg hp] at h
    simp only [Option.some_inj, Prod.mk.injEq] at h
    intro e he
    rw [← h.1] at he
    simp at he

lemma pauseWait_false (fp : String) (prog : ℕ × ℕ) (rel : Option ℕ) :
    pauseWait fp prog false rel = some ([], false) := rfl

lemma awaitAck_polls (win : Option (Time × Time)) (p : Bool) (att : List (Time × String))
    (evs : List Ev) (p1 : Bool) (rem : List (Time × String))
    (h : awaitAck win p att = some (evs, p1, rem)) :
    ∀ e ∈ evs, ∃ s, e = Ev.poll s := by
  induction att generalizing p evs p1 rem with
  | nil => simp [awaitAck] at h
  | cons a rest ih =>
      obtain ⟨t, r⟩ := a
      rw [awaitAck] at h
      by_cases hr : r = "R"
      · rw [if_pos hr] at h
        simp only [Option.some_inj, Prod.mk.injEq] at h
        intro e he
        rw [← h.1] at he
        simp only [List.mem_singleton] at he
        exact ⟨r, he⟩
      · rw [if_neg hr] at h
        cases hw : awaitAck win (schedule_checker win t p).1 rest with
        | none => rw [hw] at h; cases h
        | some x =>
            obtain ⟨evs2, p2, rem2⟩ := x
            rw [hw] at h
            simp only [Option.some_inj, Prod.mk.injEq] at h
            intro e he
            rw [← h.1] at he
            rcases List.mem_cons.mp he with rfl | he2
            · exact ⟨r, rfl⟩
            · exact ih _ _ _ _ hw e he2

lemma awaitAck_none (p : Bool) (att : List (Time × String))
    (evs : List Ev) (p1 : Bool) (rem : List (Time × String))
    (h : awaitAck none p att = some (evs, p1, rem)) :
    ackBlock evs ∧ p1 = p := by
  induction att generalizing evs p1 rem with
  | nil => simp [awaitAck] at h
  | cons a rest ih =>
      obtain ⟨t, r⟩ := a
      rw [awaitAck] at h
      by_cases hr : r = "R"
      · rw [if_pos hr] at h
        simp only [Option.some_inj, Prod.mk.injEq] at h
        refine ⟨⟨[], by simp, ?_⟩, ?_⟩
        · rw [← h.1, hr]; rfl
        · rw [← h.2.1]; rfl
      · rw [if_neg hr] at h
        cases hw : awaitAck none (schedule_checker none t p).1 rest with
        | none => rw [hw] at h; cases h
        | some x =>
            obtain ⟨evs2, p2, rem2⟩ := x
            rw [hw] at h
            simp only [Option.some_inj, Prod.mk.injEq] at h
            have hsc : (schedule_checker none t p).1 = p := rfl
            rw [hsc] at hw
            obtain ⟨⟨rs, hrs, hevs2⟩, hp2⟩ := ih _ _ _ hw
            refine ⟨⟨r :: rs, ?_, ?_⟩, ?_⟩
            · intro x hx
              rcases List.mem_cons.mp hx with rfl | hx
              · exact hr
              · exact hrs x hx
            · rw [← h.1, hevs2]; rfl
            · rw [← h.2.1]; exact hp2

lemma streamLoop_nil (env : RunEnv) (sh : Option (Time × Time)) (fp : String)
    (total k : ℕ) (prog : ℕ × ℕ) (p : Bool) (att : List (Time × String)) :
    streamLoop env sh fp total k [] prog p att = some ([], false, p, att) := rfl

lemma streamLoop3_shape (env : RunEnv) (fp : String) (total : ℕ)
    (b0 b1 b2 : List Point) (prog : ℕ × ℕ) (att : List (Time × String))
    (evs : List Ev) (exc p1 : Bool) (att1 : List (Time × String))
    (h0 : env.stopAt 0 = false) (h1 : env.stopAt 1 = false) (h2 : env.stopAt 2 = false)
    (hr0 : env.batchRaises 0 = false) (hr1 : env.batchRaises 1 = false)
    (hr2 : env.batchRaises 2 = false)
    (h : streamLoop env none fp total 0 [b0, b1, b2] prog false att =
        some (evs, exc, p1, att1)) :
    ∃ a1 a2, ackBlock a1 ∧ ackBlock a2 ∧ exc = false ∧ p1 = false ∧
      evs = [Ev.sendBatch b0, Ev.progress (some (10, total))] ++ a1 ++
            [Ev.sendBatch b1, Ev.progress (some (20, total))] ++ a2 ++
            [Ev.sendBatch b2, Ev.progress (some (30, total))] := by
  rw [streamLoop] at h
  simp only [h0, Bool.false_eq_true, if_false, pauseWait_false, hr0] at h
  simp at h
  cases hA : streamLoop env none fp total 1 [b1, b2] (10, total) false att with
  | none => rw [hA] at h; cases h
  | some x =>
      obtain ⟨evs1, exc1, pz, attz⟩ := x
      rw [hA] at h
      simp only [Option.some_inj, Prod.mk.injEq] at h
      obtain ⟨hevs, hexc, hpz, hatt⟩ := h
      rw [streamLoop] at hA
      simp only [h1, Bool.false_eq_true, if_false, pauseWait_false] at hA
      simp at hA
      cases hW1 : awaitAck none false att with
      | none => rw [hW1] at hA; cases hA
      | some y =>
          obtain ⟨a1evs, pw, attw⟩ := y
          rw [hW1] at hA
          obtain ⟨hack1, hpw⟩ := awaitAck_none _ _ _ _ _ hW1
          subst hpw
          simp only [hr1, Bool.false_eq_true, if_false] at hA
          cases hA2 : streamLoop env none fp total 2 [b2] (20, total) false attw with
          | none => rw [hA2] at hA; cases hA
          | some z =>
              obtain ⟨evs2, exc2, pz2, attz2⟩ := z
              rw [hA2] at hA
              simp only [Option.some_inj, Prod.mk.injEq] at hA
              obtain ⟨hevs1, hexc1, hpz1, hatt1⟩ := hA
              rw [streamLoop] at hA2
              simp only [h2, Bool.false_eq_true, if_false, pauseWait_false] at hA2
              simp at hA2
              cases hW2 : awaitAck none false attw with
              | none => rw [hW2] at hA2; cases hA2
              | some w =>
                  obtain ⟨a2evs, pw2, attw2⟩ := w
                  rw [hW2] at hA2
                  obtain ⟨hack2, hpw2⟩ := awaitAck_none _ _ _ _ _ hW2
                  subst hpw2
                  simp only [hr2, Bool.false_eq_true, if_false,
                    streamLoop_nil, Option.some_inj, Prod.mk.injEq] at hA2
                  obtain ⟨hevs2, hexc2, hpz2, hatt2⟩ := hA2
                  refine ⟨a1evs, a2evs, hack1, hack2, ?_, ?_, ?_⟩
                  · rw [← hexc, ← hexc1, ← hexc2]
                  · rw [← hpz, ← hpz1, ← hpz2]
                  · rw [← hevs, ← hevs1, ← hevs2]
                    simp

lemma chunks_len25 (coords : List Point) (h : coords.length = 25) :
    chunks coords =
      [coords.take 10, (coords.drop 10).take 10, (coords.drop 20).take 10] := by
  have h3 : (coords.length + 9) / 10 = 3 := by rw [h]
  unfold chunks
  rw [h3]
  have hr3 : List.range 3 = [0, 1, 2] := rfl
  rw [hr3]
  simp

lemma batchesOf_append (a b : List Ev) :
    batchesOf (a ++ b) = batchesOf a ++ batchesOf b := by
  simp [batchesOf]

lemma batchesOf_polls (rs : List String) : batchesOf (rs.map Ev.poll) = [] := by
  induction rs with
  | nil => rfl
  | cons r tl ih => simp [batchesOf] at ih ⊢

lemma batchesOf_ack (a : List Ev) (h : ackBlock a) : batchesOf a = [] := by
  obtain ⟨rs, _, rfl⟩ := h
  rw [batchesOf_append, batchesOf_polls]
  rfl

lemma normalizeCoords_head_zero (c0 : Point) (tl : List Point) (h : c0.theta = 0) :
    normalizeCoords (c0 :: tl) = c0 :: tl := by
  have he : (fun c : Point => (⟨c.theta - c0.theta, c.rho⟩ : Point)) = fun c => c := by
    funext c
    rw [h, sub_zero]
  rw [show normalizeCoords (c0 :: tl) =
        (c0 :: tl).map (fun c => ⟨c.theta - c0.theta, c.rho⟩) from rfl, he]
  simp

lemma streamLoop3_stop2_shape (env : RunEnv) (fp : String) (total : ℕ)
    (b0 b1 b2 : List Point) (prog : ℕ × ℕ) (att : List (Time × String))
    (evs : List Ev) (exc p1 : Bool) (att1 : List (Time × String))
    (h0 : env.stopAt 0 = false) (h1 : env.stopAt 1 = false) (h2 : env.stopAt 2 = true)
    (hr0 : env.batchRaises 0 = false) (hr1 : env.batchRaises 1 = false)
    (h : streamLoop env none fp total 0 [b0, b1, b2] prog false att =
        some (evs, exc, p1, att1)) :
    ∃ a1, ackBlock a1 ∧ exc = false ∧ p1 = false ∧
      evs = [Ev.sendBatch b0, Ev.progress (some (10, total))] ++ a1 ++
            [Ev.sendBatch b1, Ev.progress (some (20, total))] := by
  rw [streamLoop] at h
  simp only [h0, Bool.false_eq_true, if_false, pauseWait_false, hr0] at h
  simp at h
  cases hA : streamLoop env none fp total 1 [b1, b2] (10, total) false att with
  | none => rw [hA] at h; cases h
  | some x =>
      obtain ⟨evs1, exc1, pz, attz⟩ := x
      rw [hA] at h
      simp only [Option.some_inj, Prod.mk.injEq] at h
      obtain ⟨hevs, hexc, hpz, hatt⟩ := h
      rw [streamLoop] at hA
      simp only [h1, Bool.false_eq_true, if_false, pauseWait_false] at hA
      simp at hA
      cases hW1 : awaitAck none false att with
      | none => rw [hW1] at hA; cases hA
      | some y =>
          obtain ⟨a1evs, pw, attw⟩ := y
          rw [hW1] at hA
          obtain ⟨hack1, hpw⟩ := awaitAck_none _ _ _ _ _ hW1
          subst hpw
          simp only [hr1, Bool.false_eq_true, if_false] at hA
          rw [show streamLoop env none fp total 2 [b2] (20, total) false attw =
              some ([], false, false, attw) by rw [streamLoop]; simp [h2]] at hA
          simp only [Option.some_inj, Prod.mk.injEq] at hA
          obtain ⟨hevs1, hexc1, hpz1, hatt1⟩ := hA
          refine ⟨a1evs, hack1, ?_, ?_, ?_⟩
          · rw [← hexc, ← hexc1]
          · rw [← hpz, ← hpz1]
          · rw [← hevs, ← hevs1]
            simp

lemma ceParse (s : String) : parse_theta_rho_file (ceFs s) = cePoints := by
  show normalizeCoords (parseLines ceLines) = cePoints
  have h1 : parseLines ceLines =
      Point.mk 0 0 :: List.replicate 24 (Point.mk 0 0) := rfl
  rw [h1, normalizeCoords_head_zero _ _ rfl]
  rfl


lemma notifyOK_notify_some (f : String) (pr : Option (ℕ × ℕ)) :
    notifyOK (Ev.notify (some f) pr) :=
  fun _ => rfl

lemma notifyOK_notify_none : notifyOK (Ev.notify none none) :=
  fun h => h

lemma streamLoop_notifyOK (env : RunEnv) (win : Option (Time × Time)) (fp : String)
    (total : ℕ) (bs : List (List Point)) :
    ∀ (k : ℕ) (prog : ℕ × ℕ) (p : Bool) (att : List (Time × String))
      (evs : List Ev) (exc p1 : Bool) (att1 : List (Time × String)),
      streamLoop env win fp total k bs prog p att = some (evs, exc, p1, att1) →
      ∀ e ∈ evs, notifyOK e := by
  induction bs with
  | nil =>
      intro k prog p att evs exc p1 att1 h e he
      rw [streamLoop_nil] at h
      simp only [Option.some_inj, Prod.mk.injEq] at h
      rw [← h.1] at he
      simp at he
  | cons b rest ih =>
      intro k prog p att evs exc p1 att1 h e he
      rw [streamLoop] at h
      by_cases hs : env.stopAt k
      · rw [if_pos hs] at h
        simp only [Option.some_inj, Prod.mk.injEq] at h
        rw [← h.1] at he
        simp at he
      · rw [if_neg hs] at h
        cases hpw : pauseWait fp prog p (env.release k) with
        | none => rw [hpw] at h; cases h
        | some y =>
            obtain ⟨pevs, pz⟩ := y
            rw [hpw] at h
            simp only [] at h
            have hpm := pauseWait_mem _ _ _ _ _ _ hpw
            by_cases hk : k = 0
            · rw [if_pos hk] at h
              by_cases hbr : env.batchRaises k
              · rw [if_pos hbr] at h
                simp only [Option.some_inj, Prod.mk.injEq] at h
                rw [← h.1] at he
                rw [hpm e he]
                exact notifyOK_notify_some _ _
              · rw [if_neg hbr] at h
                cases hrec : streamLoop env win fp total (k + 1) rest
                    (10 * k + 10, total) pz att with
                | none => rw [hrec] at h; cases h
                | some z =>
                    obtain ⟨evs2, exc2, pz2, attz2⟩ := z
                    rw [hrec] at h
                    simp only [Option.some_inj, Prod.mk.injEq] at h
                    rw [← h.1] at he
                    simp only [List.append_assoc, List.mem_append, List.mem_cons,
                      List.mem_singleton, List.not_mem_nil, or_false] at he
                    rcases he with he | (rfl | rfl) | he
                    · rw [hpm e he]
                      exact notifyOK_notify_some _ _
                    · trivial
                    · trivial
                    · exact ih _ _ _ _ _ _ _ _ hrec e he
            · rw [if_neg hk] at h
              cases hW : awaitAck win pz att with
              | none => rw [hW] at h; cases h
              | some w =>
                  obtain ⟨aevs, p2, att2⟩ := w
                  rw [hW] at h
                  simp only [] at h
                  have hap := awaitAck_polls _ _ _ _ _ _ hW
                  by_cases hbr : env.batchRaises k
                  · rw [if_pos hbr] at h
                    simp only [Option.some_inj, Prod.mk.injEq] at h
                    rw [← h.1] at he
                    rcases List.mem_append.mp he with he | he
                    · rw [hpm e he]
                      exact notifyOK_notify_some _ _
                    · obtain ⟨sr, rfl⟩ := hap e he
                      trivial
                  · rw [if_neg hbr] at h
                    cases hrec : streamLoop env win fp total (k + 1) rest
                        (10 * k + 10, total) p2 att2 with
                    | none => rw [hrec] at h; cases h
                    | some z =>
                        obtain ⟨evs2, exc2, pz2, attz2⟩ := z
                        rw [hrec] at h
                        simp only [Option.some_inj, Prod.mk.injEq] at h
                        rw [← h.1] at he
                        simp only [List.append_assoc, List.mem_append, List.mem_cons,
                          List.mem_singleton, List.not_mem_nil, or_false] at he
                        rcases he with he | he | (rfl | rfl) | he
                        · rw [hpm e he]
                          exact notifyOK_notify_some _ _
                        · obtain ⟨sr, rfl⟩ := hap e he
                          trivial
                        · trivial
                        · trivial
                        · exact ih _ _ _ _ _ _ _ _ hrec e he

lemma chunks_head (coords : List Point) (h : 2 ≤ coords.length) :
    ∃ tl, chunks coords = coords.take 10 :: tl := by
  unfold chunks
  obtain ⟨m, hm⟩ : ∃ m, (coords.length + 9) / 10 = m + 1 :=
    ⟨(coords.length + 9) / 10 - 1, by omega⟩
  rw [hm, List.range_succ_eq_map]
  refine ⟨((List.range m).map Nat.succ).map
      (fun k => (coords.drop (10 * k)).take 10), ?_⟩
  simp

lemma clearPhase_no_ret (env : PlEnv) (fs : String → Option (List Line))
    (sh : Option (Time × Time)) (cp : Option String) (p : Bool) (c : PlCtr)
    (hstop : ∀ j, env.stopRead j = false)
    (evs : List Ev) (p2 : Bool) (c2 : PlCtr) :
    clearPhase env fs sh cp p c ≠ PhaseOut.ret evs p2 c2 := by
  intro h
  cases cp with
  | none => simp [clearPhase] at h
  | some cpv =>
      rw [clearPhase] at h
      by_cases he : cpv = ""
      · rw [if_pos he] at h
        cases h
      · rw [if_neg he] at h
        simp only [hstop, Bool.false_eq_true, if_false] at h
        split at h
        · cases h
        · cases h

lemma playlistItems_no_early (env : PlEnv) (fs : String → Option (List Line))
    (sh : Option (Time × Time)) (cp : Option String) (tot : ℕ)
    (hstop : ∀ j, env.stopRead j = false) :
    ∀ (paths : List String) (idx : ℕ) (p : Bool) (c : PlCtr) (early : Bool)
      (evs : List Ev) (p1 : Bool) (c1 : PlCtr),
      playlistItems env fs sh cp tot paths idx p c = some (early, evs, p1, c1) →
      early = false := by
  intro paths
  induction paths with
  | nil =>
      intro idx p c early evs p1 c1 h
      rw [playlistItems] at h
      simp only [Option.some_inj, Prod.mk.injEq] at h
      exact h.1.symm
  | cons path rest ih =>
      intro idx p c early evs p1 c1 h
      rw [playlistItems] at h
      simp only [hstop, Bool.false_eq_true, if_false] at h
      split at h
      · cases h
      · rename_i evsr pr cr heq
        exact absurd heq (clearPhase_no_ret env fs sh cp _ _ hstop _ _ _)
      · split at h
        · cases h
        · split at h
          · split at h
            · cases h
            · rename_i z hz
              obtain ⟨e4, evs4, p4, c4⟩ := z
              simp only [Option.some_inj, Prod.mk.injEq] at h
              rw [← h.1]
              exact ih _ _ _ _ _ _ _ hz
          · split at h
            · cases h
            · rename_i z hz
              obtain ⟨e4, evs4, p4, c4⟩ := z
              simp only [Option.some_inj, Prod.mk.injEq] at h
              rw [← h.1]
              exact ih _ _ _ _ _ _ _ hz

lemma playlistPasses_no_early (env : PlEnv) (fs : String → Option (List Line))
    (sh : Option (Time × Time)) (cp : Option String) (rm : String) (shuf : Bool)
    (hstop : ∀ j, env.stopRead j = false) :
    ∀ (fuel : ℕ) (files : List String) (pi : ℕ) (p : Bool) (c : PlCtr)
      (early : Bool) (evs : List Ev) (p1 : Bool) (c1 : PlCtr),
      playlistPasses env fs sh cp rm shuf fuel files pi p c =
        some (early, evs, p1, c1) →
      early = false := by
  intro fuel
  induction fuel with
  | zero =>
      intro files pi p c early evs p1 c1 h
      rw [playlistPasses] at h
      cases h
  | succ n ih =>
      intro files pi p c early evs p1 c1 h
      rw [playlistPasses] at h
      cases hit : playlistItems env fs sh cp files.length files 0 p c with
      | none => rw [hit] at h; cases h
      | some x =>
          obtain ⟨e1, evs1, pz, cz⟩ := x
          have he1 : e1 = false :=
            playlistItems_no_early env fs sh cp files.length hstop
              files 0 p c e1 evs1 pz cz hit
          subst he1
          rw [hit] at h
          simp only [] at h
          by_cases hrm : rm = "indefinite"
          · rw [if_pos hrm] at h
            cases hp2 : playlistPasses env fs sh cp rm shuf n
                (if shuf then env.shuffled (pi + 1) files else files)
                (pi + 1) pz cz with
            | none => rw [hp2] at h; cases h
            | some y =>
                obtain ⟨e2, evs2, p3, c3⟩ := y
                rw [hp2] at h
                simp only [Option.some_inj, Prod.mk.injEq] at h
                rw [← h.1]
                exact ih _ _ _ _ _ _ _ _ hp2
          · rw [if_neg hrm] at h
            simp only [Option.some_inj, Prod.mk.injEq] at h
            exact h.1.symm

lemma ceParse5 (s : String) : parse_theta_rho_file (ceFs5 s) = cePoints5 := by
  show normalizeCoords (parseLines ceLines5) = cePoints5
  have h1 : parseLines ceLines5 =
      Point.mk 0 0 :: List.replicate 4 (Point.mk 0 0) := rfl
  rw [h1, normalizeCoords_head_zero _ _ rfl]
  rfl

end Lemmas

/-- C1: a 25-point pattern run with no stop, pause or schedule interference
(and no transport failure) sends exactly 3 batches — points 0-9, 10-19 and
20-24, of sizes 10, 10 and 5, in pattern order; the first batch is sent with
no prior poll; batches 2 and 3 are each sent immediately after (and only
after) a `send_command("R")` poll answered exactly `"R"`; every poll answered
otherwise is followed by another poll, with no batch sent and no progress
assignment in between (the `ackBlock`s consist of polls only). -/
theorem C1_batch_handshake (fp : String) (fs : String → Option (List Line))
    (coords : List Point) (env : RunEnv) (r : RunResult)
    (hparse : parse_theta_rho_file (fs fp) = coords)
    (hlen : coords.length = 25)
    (hstop : ∀ k, env.stopAt k = false)
    (hraise : ∀ k, env.batchRaises k = false)
    (hrun : run_theta_rho_file env fs none fp false = some r) :
    ∃ a1 a2, ackBlock a1 ∧ ackBlock a2 ∧
      r.trace =
        [Ev.progress (some (0, 0)), Ev.notify (some fp) (some (0, 0)),
         Ev.progress (some (0, 25)),
         Ev.sendBatch (coords.take 10), Ev.progress (some (10, 25))] ++ a1 ++
        [Ev.sendBatch ((coords.drop 10).take 10), Ev.progress (some (20, 25))] ++ a2 ++
        [Ev.sendBatch ((coords.drop 20).take 10), Ev.progress (some (30, 25)),
         Ev.resetPos, Ev.sendCmd "FINISHED", Ev.progress none, Ev.notify none none] ∧
      batchesOf r.trace =
        [coords.take 10, (coords.drop 10).take 10, (coords.drop 20).take 10] ∧
      (coords.take 10).length = 10 ∧ ((coords.drop 10).take 10).length = 10 ∧
      ((coords.drop 20).take 10).length = 5 := by
  simp only [run_theta_rho_file, hparse, hlen] at hrun
  rw [chunks_len25 coords hlen] at hrun
  simp only [show ¬(25 < 2) by decide, if_false] at hrun
  cases hS : streamLoop env none fp 25 0
      [coords.take 10, (coords.drop 10).take 10, (coords.drop 20).take 10]
      (0, 25) false env.attempts with
  | none => rw [hS] at hrun; cases hrun
  | some x =>
      obtain ⟨evs, exc, pz, attz⟩ := x
      rw [hS] at hrun
      obtain ⟨a1, a2, hack1, hack2, hexc, hpz, hevs⟩ :=
        streamLoop3_shape env fp 25 _ _ _ _ _ _ _ _ _
          (hstop 0) (hstop 1) (hstop 2) (hraise 0) (hraise 1) (hraise 2) hS
      subst hexc
      simp only [Option.some_inj] at hrun
      subst hrun
      have htr : ([Ev.progress (some (0, 0)), Ev.notify (some fp) (some (0, 0))] ++
            [Ev.progress (some (0, 25))] ++ evs ++
            (if (false : Bool) = true then [] else [Ev.resetPos, Ev.sendCmd "FINISHED"]) ++
            [Ev.progress none, Ev.notify none none] : List Ev) =
          [Ev.progress (some (0, 0)), Ev.notify (some fp) (some (0, 0)),
           Ev.progress (some (0, 25)),
           Ev.sendBatch (coords.take 10), Ev.progress (some (10, 25))] ++ a1 ++
          [Ev.sendBatch ((coords.drop 10).take 10), Ev.progress (some (20, 25))] ++ a2 ++
          [Ev.sendBatch ((coords.drop 20).take 10), Ev.progress (some (30, 25)),
           Ev.resetPos, Ev.sendCmd "FINISHED", Ev.progress none, Ev.notify none none] := by
        rw [hevs]
        simp
      refine ⟨a1, a2, hack1, hack2, ?_, ?_, ?_, ?_, ?_⟩
      · simpa using htr
      · have hb1 := batchesOf_ack a1 hack1
        have hb2 := batchesOf_ack a2 hack2
        have : batchesOf ([Ev.progress (some (0, 0)), Ev.notify (some fp) (some (0, 0))] ++
            [Ev.progress (some (0, 25))] ++ evs ++
            (if (false : Bool) = true then [] else [Ev.resetPos, Ev.sendCmd "FINISHED"]) ++
            [Ev.progress none, Ev.notify none none] : List Ev) =
            [coords.take 10, (coords.drop 10).take 10, (coords.drop 20).take 10] := by
          rw [htr]
          simp only [batchesOf_append, hb1, hb2]
          simp [batchesOf]
        simpa using this
      · rw [List.length_take, hlen]; decide
      · rw [List.length_take, List.length_drop, hlen]; decide
      · rw [List.length_take, List.length_drop, hlen]; decide

/-- Witness for C1: the benign 25-point run against an always-ready device
(both handshakes acknowledged on the first poll). -/
theorem C1_batch_handshake_witness :
    ∃ a1 a2, ackBlock a1 ∧ ackBlock a2 ∧
      ceTraceC1 =
        [Ev.progress (some (0, 0)), Ev.notify (some "a.thr") (some (0, 0)),
         Ev.progress (some (0, 25)),
         Ev.sendBatch (cePoints.take 10), Ev.progress (some (10, 25))] ++ a1 ++
        [Ev.sendBatch ((cePoints.drop 10).take 10), Ev.progress (some (20, 25))] ++ a2 ++
        [Ev.sendBatch ((cePoints.drop 20).take 10), Ev.progress (some (30, 25)),
         Ev.resetPos, Ev.sendCmd "FINISHED", Ev.progress none, Ev.notify none none] ∧
      batchesOf ceTraceC1 =
        [cePoints.take 10, (cePoints.drop 10).take 10, (cePoints.drop 20).take 10] ∧
      (cePoints.take 10).length = 10 ∧ ((cePoints.drop 10).take 10).length = 10 ∧
      ((cePoints.drop 20).take 10).length = 5 :=
  C1_batch_handshake "a.thr" ceFs cePoints ceEnvC1 ⟨ceTraceC1, none, none, false⟩
    (ceParse "a.thr") rfl (fun _ => rfl) (fun _ => rfl)
    (by
      have hp := ceParse "a.thr"
      simp only [run_theta_rho_file, hp]
      decide)

/-- C2 counterexample: on the 25-point pattern, the device answers the first
poll for batch 2 with `"BUSY"`; stop is requested while that retry loop is
polling (`ceEnvC2.stopAt` reads false at iterations 0 and 1 and true from
iteration 2 on).  The claim says the run terminates without sending the
not-yet-acknowledged batch; the code instead keeps polling, sends the batch
once the device acknowledges, and only then exits — the trace contains the
send of points 10-19. -/
theorem C2_counterexample :
    run_theta_rho_file ceEnvC2 ceFs none "a.thr" false =
      some ⟨ceTraceC2, none, none, false⟩ ∧
    Ev.sendBatch ((cePoints.drop 10).take 10) ∈ ceTraceC2 ∧
    batchesOf ceTraceC2 = [cePoints.take 10, (cePoints.drop 10).take 10] := by
  refine ⟨?_, by decide, by decide⟩
  have hp := ceParse "a.thr"
  simp only [run_theta_rho_file, hp]
  decide

/-- C2 (amended): the retry loop checks neither stop nor pause; if stop is
requested while the handshake retry loop for batch 2 is polling (so the stop
flag still read false at the checks before batches 1 and 2 and reads true
from the next top-of-loop check on), the runner completes the in-flight
handshake and still sends batch 2 once acknowledged; it then exits the
streaming loop before sending any later batch and finalizes with
`resetPosition`, `FINISHED` and cleared state. -/
theorem C2_amended (fp : String) (fs : String → Option (List Line))
    (coords : List Point) (env : RunEnv) (r : RunResult)
    (hparse : parse_theta_rho_file (fs fp) = coords)
    (hlen : coords.length = 25)
    (h0 : env.stopAt 0 = false) (h1 : env.stopAt 1 = false)
    (h2 : env.stopAt 2 = true)
    (hraise : ∀ k, env.batchRaises k = false)
    (hrun : run_theta_rho_file env fs none fp false = some r) :
    ∃ a1, ackBlock a1 ∧
      r.trace =
        [Ev.progress (some (0, 0)), Ev.notify (some fp) (some (0, 0)),
         Ev.progress (some (0, 25)),
         Ev.sendBatch (coords.take 10), Ev.progress (some (10, 25))] ++ a1 ++
        [Ev.sendBatch ((coords.drop 10).take 10), Ev.progress (some (20, 25)),
         Ev.resetPos, Ev.sendCmd "FINISHED", Ev.progress none, Ev.notify none none] ∧
      batchesOf r.trace = [coords.take 10, (coords.drop 10).take 10] := by
  simp only [run_theta_rho_file, hparse, hlen] at hrun
  rw [chunks_len25 coords hlen] at hrun
  simp only [show ¬(25 < 2) by decide, if_false] at hrun
  cases hS : streamLoop env none fp 25 0
      [coords.take 10, (coords.drop 10).take 10, (coords.drop 20).take 10]
      (0, 25) false env.attempts with
  | none => rw [hS] at hrun; cases hrun
  | some x =>
      obtain ⟨evs, exc, pz, attz⟩ := x
      rw [hS] at hrun
      obtain ⟨a1, hack1, hexc, hpz, hevs⟩ :=
        streamLoop3_stop2_shape env fp 25 _ _ _ _ _ _ _ _ _
          h0 h1 h2 (hraise 0) (hraise 1) hS
      subst hexc
      simp only [Option.some_inj] at hrun
      subst hrun
      have hb1 := batchesOf_ack a1 hack1
      refine ⟨a1, hack1, ?_, ?_⟩
      · rw [hevs]
        simp
      · rw [hevs]
        simp only [RunResult.trace]
        simp only [batchesOf_append, hb1, List.append_assoc]
        simp [batchesOf]

/-- Witness for the amended C2 on the concrete stop-during-retry run. -/
theorem C2_amended_witness :
    ∃ a1, ackBlock a1 ∧
      ceTraceC2 =
        [Ev.progress (some (0, 0)), Ev.notify (some "a.thr") (some (0, 0)),
         Ev.progress (some (0, 25)),
         Ev.sendBatch (cePoints.take 10), Ev.progress (some (10, 25))] ++ a1 ++
        [Ev.sendBatch ((cePoints.drop 10).take 10), Ev.progress (some (20, 25)),
         Ev.resetPos, Ev.sendCmd "FINISHED", Ev.progress none, Ev.notify none none] ∧
      batchesOf ceTraceC2 = [cePoints.take 10, (cePoints.drop 10).take 10] :=
  C2_amended "a.thr" ceFs cePoints ceEnvC2 ⟨ceTraceC2, none, none, false⟩
    (ceParse "a.thr") rfl rfl rfl rfl (fun _ => rfl)
    (by
      have hp := ceParse "a.thr"
      simp only [run_theta_rho_file, hp]
      decide)

/-- C3 counterexample: running the 5-point pattern, the progress recorded
immediately after the only batch is `(10, 5)` — the code stores
`i + batch_size` without clamping — and `(min 10 5, 5) = (5, 5)` never
appears in the trace, refuting `completed = min(10, total)` and
`completed ≤ total`. -/
theorem C3_counterexample :
    run_theta_rho_file ceEnvC1 ceFs5 none "b.thr" false =
      some ⟨ceTraceC3, none, none, false⟩ ∧
    Ev.progress (some (10, 5)) ∈ ceTraceC3 ∧
    Ev.progress (some (min 10 5, 5)) ∉ ceTraceC3 ∧
    (10 : ℕ) ≠ min 10 5 := by
  refine ⟨?_, by decide, by decide, by decide⟩
  have hp := ceParse5 "b.thr"
  simp only [run_theta_rho_file, hp]
  decide

/-- C3 (amended): for every pattern with at least 2 points, immediately
after the first batch is sent the recorded progress is `(10, total)` — the
stride `i + batch_size`, not `min(10, total)` — so for `2 ≤ total < 10` the
reported completed count is 10, which exceeds `total`. -/
theorem C3_amended (fp : String) (fs : String → Option (List Line))
    (coords : List Point) (env : RunEnv) (win : Option (Time × Time)) (r : RunResult)
    (hparse : parse_theta_rho_file (fs fp) = coords)
    (hn : 2 ≤ coords.length)
    (h0 : env.stopAt 0 = false)
    (hr0 : env.batchRaises 0 = false)
    (hrun : run_theta_rho_file env fs win fp false = some r) :
    ∃ post, r.trace =
      [Ev.progress (some (0, 0)), Ev.notify (some fp) (some (0, 0)),
       Ev.progress (some (0, coords.length)),
       Ev.sendBatch (coords.take 10), Ev.progress (some (10, coords.length))] ++ post := by
  simp only [run_theta_rho_file, hparse] at hrun
  rw [if_neg (by omega : ¬(coords.length < 2))] at hrun
  obtain ⟨tl, htl⟩ := chunks_head coords hn
  rw [htl, streamLoop] at hrun
  simp only [h0, Bool.false_eq_true, if_false, pauseWait_false, hr0] at hrun
  simp at hrun
  cases hA : streamLoop env win fp coords.length 1 tl (10, coords.length) false
      env.attempts with
  | none => rw [hA] at hrun; cases hrun
  | some x =>
      obtain ⟨evs1, exc1, pz, attz⟩ := x
      rw [hA] at hrun
      simp only [Option.some_inj] at hrun
      subst hrun
      refine ⟨evs1 ++ (if exc1 = true then [] else [Ev.resetPos, Ev.sendCmd "FINISHED"])
          ++ [Ev.progress none, Ev.notify none none], ?_⟩
      simp

/-- Witness for the amended C3 on the concrete 5-point run. -/
theorem C3_amended_witness :
    ∃ post, ceTraceC3 =
      [Ev.progress (some (0, 0)), Ev.notify (some "b.thr") (some (0, 0)),
       Ev.progress (some (0, 5)),
       Ev.sendBatch (cePoints5.take 10), Ev.progress (some (10, 5))] ++ post :=
  C3_amended "b.thr" ceFs5 cePoints5 ceEnvC1 none ⟨ceTraceC3, none, none, false⟩
    (ceParse5 "b.thr") (by decide) rfl rfl
    (by
      have hp := ceParse5 "b.thr"
      simp only [run_theta_rho_file, hp]
      decide)

/-- C4 counterexample: a single-file playlist where `stop_execution` has
already run when the first stop check of the loop happens.  The playlist
runner returns immediately with an empty trace — it issues neither
`resetPosition()` nor `sendCommand("FINISHED")` on this stop-triggered exit,
contradicting the claim that both are issued on every final exit. -/
theorem C4_counterexample :
    run_theta_rho_files 1 ceEnvPlStop ceFs5 ["b.thr"] 0 none "single" false
        none false = some [] ∧
    Ev.resetPos ∉ ([] : List Ev) ∧
    Ev.sendCmd "FINISHED" ∉ ([] : List Ev) := by
  refine ⟨?_, by decide, by decide⟩
  decide

/-- C4 (amended): when the playlist run completes without ever observing
`stopRequested`, `run_theta_rho_files` issues `resetPosition()` followed by
`sendCommand("FINISHED")` as its final two events before returning; when it
returns early because a stop was observed, it returns without issuing them
itself (the last nested file run, if any, has already issued its own pair).
-/
theorem C4_amended (fuel : ℕ) (env : PlEnv) (fs : String → Option (List Line))
    (file_paths : List String) (pause_time : ℕ) (clear_pattern : Option String)
    (run_mode : String) (shuffle : Bool) (sh : Option (Time × Time)) (p0 : Bool)
    (tr : List Ev)
    (hstop : ∀ j, env.stopRead j = false)
    (hrun : run_theta_rho_files fuel env fs file_paths pause_time clear_pattern
        run_mode shuffle sh p0 = some tr) :
    ∃ pre, tr = pre ++ [Ev.resetPos, Ev.sendCmd "FINISHED"] := by
  rw [run_theta_rho_files] at hrun
  cases hpp : playlistPasses env fs sh clear_pattern run_mode shuffle fuel
      (if shuffle then env.shuffled 0 file_paths else file_paths) 0 p0
      ⟨0, 0, 0, 0⟩ with
  | none => rw [hpp] at hrun; cases hrun
  | some x =>
      obtain ⟨early, evs, p1, c1⟩ := x
      have he : early = false :=
        playlistPasses_no_early env fs sh clear_pattern run_mode shuffle hstop
          fuel _ 0 p0 ⟨0, 0, 0, 0⟩ early evs p1 c1 hpp
      subst he
      rw [hpp] at hrun
      simp only [Option.some_inj] at hrun
      exact ⟨evs, hrun.symm⟩

/-- Witness for the amended C4: a benign single-file playlist over the
5-point file, whose trace is the nested run followed by the playlist-level
`resetPos` and `FINISHED`. -/
theorem C4_amended_witness :
    ∃ pre, ceTraceC3 ++ [Ev.resetPos, Ev.sendCmd "FINISHED"] =
      pre ++ [Ev.resetPos, Ev.sendCmd "FINISHED"] :=
  C4_amended 1 ceEnvPl ceFs5 ["b.thr"] 0 none "single" false none false
    (ceTraceC3 ++ [Ev.resetPos, Ev.sendCmd "FINISHED"])
    (fun _ => rfl)
    (by
      have hfile : run_theta_rho_file ceEnvC1 ceFs5 none "b.thr" false =
          some ⟨ceTraceC3, none, none, false⟩ := by
        have hp := ceParse5 "b.thr"
        simp only [run_theta_rho_file, hp]
        decide
      simp only [run_theta_rho_files, playlistPasses, playlistItems, clearPhase,
        ceEnvPl, schedule_checker, hfile]
      decide)

/-- C7: a missing or unreadable file parses to the empty pattern (the
modelled parse is a total function — malformed or unreadable input never
raises), and a pattern with fewer than 2 points makes `run_theta_rho_file`
return after only the two MQTT updates: no transport call of any kind is
made, and `current_playing_file` and `execution_progress` are both `None`
on return. -/
theorem C7_short_pattern_reject (env : RunEnv) (fs : String → Option (List Line))
    (win : Option (Time × Time)) (fp : String) (p0 : Bool)
    (hshort : (parse_theta_rho_file (fs fp)).length < 2) :
    parse_theta_rho_file none = [] ∧
    run_theta_rho_file env fs win fp p0 =
      some ⟨[Ev.progress (some (0, 0)), Ev.notify (some fp) (some (0, 0)),
             Ev.progress none, Ev.notify none none], none, none, p0⟩ ∧
    ∀ e ∈ [Ev.progress (some (0, 0)), Ev.notify (some fp) (some (0, 0)),
           Ev.progress none, Ev.notify none none], isTransport e = false := by
  refine ⟨rfl, ?_, ?_⟩
  · simp only [run_theta_rho_file, if_pos hshort]
    rfl
  · intro e he
    rcases List.mem_cons.mp he with rfl | he
    · rfl
    rcases List.mem_cons.mp he with rfl | he
    · rfl
    rcases List.mem_cons.mp he with rfl | he
    · rfl
    rcases List.mem_cons.mp he with rfl | he
    · rfl
    simp at he

/-- Witness for C7: a filesystem on which every file is missing. -/
theorem C7_short_pattern_reject_witness :
    parse_theta_rho_file none = [] ∧
    run_theta_rho_file ceEnvC1 (fun _ => none) none "missing.thr" false =
      some ⟨[Ev.progress (some (0, 0)), Ev.notify (some "missing.thr") (some (0, 0)),
             Ev.progress none, Ev.notify none none], none, none, false⟩ ∧
    ∀ e ∈ [Ev.progress (some (0, 0)), Ev.notify (some "missing.thr") (some (0, 0)),
           Ev.progress none, Ev.notify none none], isTransport e = false :=
  C7_short_pattern_reject ceEnvC1 (fun _ => none) none "missing.thr" false
    (by decide)

/-- C8: the invariant "progress is non-None only while currentFile is
non-None" holds at every MQTT snapshot a run publishes (start, rejection,
paused-loop and final notifications, on the normal, stopped and exception
paths alike), and on return both fields are cleared together; `stop_execution`
establishes the invariant, clearing file and progress together along with
playlist, playlistIndex and isClearing; `pause_execution` and
`resume_execution` preserve the invariant, and every snapshot they publish
respects it. -/
theorem C8_progress_invariant (env : RunEnv) (fs : String → Option (List Line))
    (win : Option (Time × Time)) (fp : String) (p0 : Bool) (r : RunResult)
    (s t : ExecState)
    (hrun : run_theta_rho_file env fs win fp p0 = some r)
    (ht : progressInv t) :
    (∀ e ∈ r.trace, notifyOK e) ∧
    r.current_playing_file = none ∧ r.execution_progress = none ∧
    progressInv (stop_execution s).1 ∧ (∀ e ∈ (stop_execution s).2, notifyOK e) ∧
    (stop_execution s).1.current_playlist = none ∧
    (stop_execution s).1.current_playing_index = none ∧
    (stop_execution s).1.is_clearing = false ∧
    progressInv (pause_execution t).1 ∧ (∀ e ∈ (pause_execution t).2, notifyOK e) ∧
    progressInv (resume_execution t).1 ∧ (∀ e ∈ (resume_execution t).2, notifyOK e) := by
  have hrunpart : (∀ e ∈ r.trace, notifyOK e) ∧
      r.current_playing_file = none ∧ r.execution_progress = none := by
    by_cases hsh : (parse_theta_rho_file (fs fp)).length < 2
    · simp only [run_theta_rho_file, if_pos hsh] at hrun
      simp only [Option.some_inj] at hrun
      subst hrun
      refine ⟨?_, rfl, rfl⟩
      intro e he
      simp only [List.cons_append, List.nil_append, List.mem_cons,
        List.not_mem_nil, or_false] at he
      rcases he with rfl | rfl | rfl | rfl
      · trivial
      · exact notifyOK_notify_some _ _
      · trivial
      · exact notifyOK_notify_none
    · simp only [run_theta_rho_file, if_neg hsh] at hrun
      cases hS : streamLoop env win fp (parse_theta_rho_file (fs fp)).length 0
          (chunks (parse_theta_rho_file (fs fp)))
          (0, (parse_theta_rho_file (fs fp)).length) p0 env.attempts with
      | none => rw [hS] at hrun; cases hrun
      | some x =>
          obtain ⟨evs, exc, pz, attz⟩ := x
          rw [hS] at hrun
          simp only [Option.some_inj] at hrun
          subst hrun
          refine ⟨?_, rfl, rfl⟩
          intro e he
          simp only [List.cons_append, List.nil_append, List.mem_cons,
            List.mem_append] at he
          rcases he with rfl | rfl | rfl | he | he
          · trivial
          · exact notifyOK_notify_some _ _
          · trivial
          · rcases he with he | he
            · exact streamLoop_notifyOK env win fp _ _ _ _ _ _ _ _ _ _ hS e he
            · by_cases hexc : exc = true
              · rw [if_pos hexc] at he
                simp at he
              · rw [if_neg hexc] at he
                rcases List.mem_cons.mp he with rfl | he
                · trivial
                rcases List.mem_cons.mp he with rfl | he
                · trivial
                simp at he
          · rcases he with rfl | rfl | he
            · trivial
            · exact notifyOK_notify_none
            · simp at he
  refine ⟨hrunpart.1, hrunpart.2.1, hrunpart.2.2, fun h => h, ?_, rfl, rfl, rfl,
      ?_, ?_, ?_, ?_⟩
  · intro e he
    rcases List.mem_cons.mp he with rfl | he
    · trivial
    · rcases List.mem_cons.mp he with rfl | he
      · exact notifyOK_notify_none
      · simp at he
  · exact ht
  · intro e he
    rcases List.mem_cons.mp he with rfl | he
    · exact ht
    · simp at he
  · exact ht
  · intro e he
    rcases List.mem_cons.mp he with rfl | he
    · trivial
    · rcases List.mem_cons.mp he with rfl | he
      · exact ht
      · simp at he

/-- Witness for C8 on the 5-point run, an arbitrary dirty state for stop
and a consistent running state for pause/resume. -/
theorem C8_progress_invariant_witness :
    (∀ e ∈ ceTraceC3, notifyOK e) ∧
    (none : Option String) = none ∧ (none : Option (ℕ × ℕ)) = none ∧
    progressInv (stop_execution ⟨true, true, some "x", some (3, 9), some 2,
        some ["x"], true⟩).1 ∧
    (∀ e ∈ (stop_execution ⟨true, true, some "x", some (3, 9), some 2,
        some ["x"], true⟩).2, notifyOK e) ∧
    (stop_execution ⟨true, true, some "x", some (3, 9), some 2,
        some ["x"], true⟩).1.current_playlist = none ∧
    (stop_execution ⟨true, true, some "x", some (3, 9), some 2,
        some ["x"], true⟩).1.current_playing_index = none ∧
    (stop_execution ⟨true, true, some "x", some (3, 9), some 2,
        some ["x"], true⟩).1.is_clearing = false ∧
    progressInv (pause_execution ⟨false, false, some "f.thr", some (10, 25),
        none, none, false⟩).1 ∧
    (∀ e ∈ (pause_execution ⟨false, false, some "f.thr", some (10, 25),
        none, none, false⟩).2, notifyOK e) ∧
    progressInv (resume_execution ⟨false, false, some "f.thr", some (10, 25),
        none, none, false⟩).1 ∧
    (∀ e ∈ (resume_execution ⟨false, false, some "f.thr", some (10, 25),
        none, none, false⟩).2, notifyOK e) :=
  C8_progress_invariant ceEnvC1 ceFs5 none "b.thr" false
    ⟨ceTraceC3, none, none, false⟩
    ⟨true, true, some "x", some (3, 9), some 2, some ["x"], true⟩
    ⟨false, false, some "f.thr", some (10, 25), none, none, false⟩
    (by
      have hp := ceParse5 "b.thr"
      simp only [run_theta_rho_file, hp]
      decide)
    (fun _ => rfl)

/-- C5: for every file whose parse yields at least one point, point 0 has
theta exactly 0, point `i` has theta `rawTheta[i] - rawTheta[0]`, every rho
is unchanged, and the number and order of points are unchanged by
normalisation (`raw` here is `parseLines ls`, the coordinates as read before
the normalisation step). -/
theorem C5_normalization (ls : List Line) (c0 : Point)
    (h0 : (parseLines ls)[0]? = some c0) :
    (parse_theta_rho_file (some ls)).length = (parseLines ls).length ∧
    ((parse_theta_rho_file (some ls))[0]?).map Point.theta = some 0 ∧
    ∀ (i : ℕ) (c : Point), (parseLines ls)[i]? = some c →
      (parse_theta_rho_file (some ls))[i]? =
        some (Point.mk (c.theta - c0.theta) c.rho) := by
  cases hr : parseLines ls with
  | nil => rw [hr] at h0; simp at h0
  | cons a tl =>
      rw [hr] at h0
      have ha : a = c0 := by simpa using h0
      have hp : parse_theta_rho_file (some ls) =
          (a :: tl).map (fun c => ⟨c.theta - a.theta, c.rho⟩) := by
        simp [parse_theta_rho_file, normalizeCoords, hr]
      refine ⟨?_, ?_, ?_⟩
      · rw [hp]; simp
      · rw [hp]; simp
      · intro i c hc
        rw [hp, List.getElem?_map, hc, ← ha]
        rfl

/-- C6: a file of N lines that split into exactly two float tokens,
interleaved in any order with M lines that do not parse (blank lines,
`#`-comments, or malformed lines), parses to exactly N points, in the
original relative order of the valid lines; blank and comment lines
contribute no points.  (`parse_theta_rho_file` is a total function of the
modelled contents: malformed content never raises.) -/
theorem C6_malformed_tolerance (vs js ls : List Line)
    (hIl : Interleaved vs js ls)
    (hv : ∀ l ∈ vs, ∃ a b, l = Line.toks [Token.num a, Token.num b])
    (hj : ∀ l ∈ js, parseLine l = none) :
    parseLines ls = vs.filterMap parseLine ∧
    (parseLines ls).length = vs.length ∧
    parseLine Line.blank = none ∧ parseLine Line.comment = none := by
  have h := parseLines_interleaved hIl hv hj
  exact ⟨h, by rw [h, length_filterMap_of_valid vs hv], rfl, rfl⟩

/-- Witness for C5 at a concrete two-line file. -/
theorem C5_normalization_witness :
    (parse_theta_rho_file
        (some [Line.toks [Token.num 3, Token.num 1],
               Line.toks [Token.num 5, Token.num 2]])).length =
      (parseLines [Line.toks [Token.num 3, Token.num 1],
                   Line.toks [Token.num 5, Token.num 2]]).length ∧
    ((parse_theta_rho_file
        (some [Line.toks [Token.num 3, Token.num 1],
               Line.toks [Token.num 5, Token.num 2]]))[0]?).map Point.theta =
      some 0 ∧
    ∀ (i : ℕ) (c : Point),
      (parseLines [Line.toks [Token.num 3, Token.num 1],
                   Line.toks [Token.num 5, Token.num 2]])[i]? = some c →
      (parse_theta_rho_file
          (some [Line.toks [Token.num 3, Token.num 1],
                 Line.toks [Token.num 5, Token.num 2]]))[i]? =
        some (Point.mk (c.theta - (Point.mk 3 1).theta) c.rho) :=
  C5_normalization
    [Line.toks [Token.num 3, Token.num 1], Line.toks [Token.num 5, Token.num 2]]
    ⟨3, 1⟩ (by decide)

/-- Witness for C6: two valid lines interleaved with a blank line, a comment
and a three-token line. -/
theorem C6_malformed_tolerance_witness :
    parseLines [Line.blank, Line.toks [Token.num 1, Token.num 0], Line.comment,
        Line.toks [Token.num 2, Token.num 1],
        Line.toks [Token.num 2, Token.num 1, Token.num 3]] =
      [Line.toks [Token.num 1, Token.num 0],
       Line.toks [Token.num 2, Token.num 1]].filterMap parseLine ∧
    (parseLines [Line.blank, Line.toks [Token.num 1, Token.num 0], Line.comment,
        Line.toks [Token.num 2, Token.num 1],
        Line.toks [Token.num 2, Token.num 1, Token.num 3]]).length =
      [Line.toks [Token.num 1, Token.num 0],
       Line.toks [Token.num 2, Token.num 1]].length ∧
    parseLine Line.blank = none ∧ parseLine Line.comment = none :=
  C6_malformed_tolerance
    [Line.toks [Token.num 1, Token.num 0], Line.toks [Token.num 2, Token.num 1]]
    [Line.blank, Line.comment, Line.toks [Token.num 2, Token.num 1, Token.num 3]]
    [Line.blank, Line.toks [Token.num 1, Token.num 0], Line.comment,
     Line.toks [Token.num 2, Token.num 1],
     Line.toks [Token.num 2, Token.num 1, Token.num 3]]
    (Interleaved.right (Interleaved.left (Interleaved.right (Interleaved.left
      (Interleaved.right Interleaved.nil)))))
    (by
      intro l hl
      rcases List.mem_cons.mp hl with rfl | hl
      · exact ⟨1, 0, rfl⟩
      rcases List.mem_cons.mp hl with rfl | hl
      · exact ⟨2, 1, rfl⟩
      simp at hl)
    (by decide)

/-- C9: the scheduler check changes nothing when no window is configured;
with a window it leaves `pauseRequested` false (notifying all waiters) when
the time is in the half-open window `[start, end)` and true when outside;
and it is idempotent — a second call at the same time yields the same flag. -/
theorem C9_schedule_checker (win : Option (Time × Time)) (now : Time) (p : Bool) :
    (win = none → schedule_checker win now p = (p, false)) ∧
    (∀ s e, win = some (s, e) →
      ((s ≤ now ∧ now < e) → schedule_checker win now p = (false, true)) ∧
      (¬(s ≤ now ∧ now < e) → schedule_checker win now p = (true, false))) ∧
    schedule_checker win now (schedule_checker win now p).1 =
      schedule_checker win now p := by
  refine ⟨?_, ?_, ?_⟩
  · rintro rfl; rfl
  · rintro s e rfl
    constructor
    · intro h; simp [schedule_checker, h]
    · intro h; simp [schedule_checker, h]
  · cases win with
    | none => rfl
    | some se =>
        obtain ⟨s, e⟩ := se
        by_cases h : s ≤ now ∧ now < e <;> simp [schedule_checker, h]

/-- Witness for C9 with the window 09:00–17:00 (in minutes) at 08:00. -/
theorem C9_schedule_checker_witness :
    (some ((540 : Time), (1020 : Time)) = none →
      schedule_checker (some (540, 1020)) 480 false = (false, false)) ∧
    (∀ s e, some ((540 : Time), (1020 : Time)) = some (s, e) →
      ((s ≤ 480 ∧ 480 < e) →
        schedule_checker (some (540, 1020)) 480 false = (false, true)) ∧
      (¬(s ≤ 480 ∧ 480 < e) →
        schedule_checker (some (540, 1020)) 480 false = (true, false))) ∧
    schedule_checker (some (540, 1020)) 480
        (schedule_checker (some (540, 1020)) 480 false).1 =
      schedule_checker (some (540, 1020)) 480 false :=
  C9_schedule_checker (some (540, 1020)) 480 false

/-- C10: `stop_execution` is total (defined on every state) and idempotent —
one call already yields the fixed stopped state (`stopRequested` true,
`pauseRequested` false, file, progress, playlist and index cleared,
`isClearing` false), a second call yields the identical state, and every
call broadcasts on the condition variable. -/
theorem C10_stop_idempotent (s : ExecState) :
    stop_execution s =
      ({ stop_requested := true, pause_requested := false,
         current_playing_file := none, execution_progress := none,
         current_playing_index := none, current_playlist := none,
         is_clearing := false },
       [Ev.cvNotifyAll, Ev.notify none none]) ∧
    stop_execution (stop_execution s).1 = stop_execution s ∧
    Ev.cvNotifyAll ∈ (stop_execution s).2 := by
  exact ⟨rfl, rfl, by simp [stop_execution]⟩

end DuneWeaver
